import Mathlib

/-!
Verification of the omniStatus event pipeline.

The definitions below are shallow embeddings of the Python sources of the
repository:

* consumer.py : normalize_text, similarity, group_similar_events,
  with_retries, and the adaptive result parsing of the /analyze handler
  (trigger_analysis);
* server.py : with_retries, the post-processing of openai_analyze,
  summarize_collection;
* app/services/llm.py : openai_analyze_events (its post-processing is
  line-for-line the same as in server.openai_analyze).

Modelling conventions: Python str is modelled by String (a list of
characters), Python float by the rationals, fallible Python code by
Option (none marks a raised exception).  External collaborators (MongoDB,
the HTTP transport, the random jitter) are model boundaries: functions
receive the already-loaded record list or the per-call outcome list.
-/

set_option maxRecDepth 8000

namespace OmniStatus

/-! ## Character classes

consumer.py lines 116-122 use the re module: the whitespace class in
re.sub applied to Python str, the word class of the character class
stripping punctuation, and str.lower / str.strip.  The model covers the
ASCII range together with the accented letters named explicitly in the
regex of line 121; outside that range the CPython unicode tables would
apply, which no claim below touches. -/

/-- Whitespace as matched by the regex class in normalize_text and
stripped by str.strip: space, tab, newline, carriage return, vertical
tab, form feed. -/
def pyIsSpace (c : Char) : Bool :=
  c = ' ' || c = '\t' || c = '\n' || c = '\r' || c = Char.ofNat 11 || c = Char.ofNat 12

/-- The lower-casing table of str.lower over the modelled range:
the 26 ASCII capitals plus the upper-case forms of the accented letters
kept by normalize_text. -/
def lowerTable : List (Char × Char) :=
  [('A', 'a'), ('B', 'b'), ('C', 'c'), ('D', 'd'), ('E', 'e'), ('F', 'f'),
   ('G', 'g'), ('H', 'h'), ('I', 'i'), ('J', 'j'), ('K', 'k'), ('L', 'l'),
   ('M', 'm'), ('N', 'n'), ('O', 'o'), ('P', 'p'), ('Q', 'q'), ('R', 'r'),
   ('S', 's'), ('T', 't'), ('U', 'u'), ('V', 'v'), ('W', 'w'), ('X', 'x'),
   ('Y', 'y'), ('Z', 'z'),
   ('Á', 'á'), ('É', 'é'), ('Í', 'í'), ('Ó', 'ó'), ('Ú', 'ú'), ('Ñ', 'ñ')]

/-- str.lower on one character. -/
def pyToLower (c : Char) : Char :=
  (lowerTable.lookup c).getD c

/-- The letters the regex of consumer.py line 121 names explicitly. -/
def accented : List Char := ['á', 'é', 'í', 'ó', 'ú', 'ñ']

/-- A word character of the regex word class over the ASCII range:
letters, digits, underscore. -/
def pyIsWord (c : Char) : Bool :=
  c.isAlphanum || c = '_'

/-- Characters the stripping regex of line 121 keeps: word characters,
the accented letters, and the space. -/
def keepChar (c : Char) : Bool :=
  pyIsWord c || accented.contains c || c = ' '

/-- re.sub of one-or-more whitespace by a single space (line 120):
every maximal whitespace run becomes one space character. -/
def collapseWs : List Char → List Char
  | [] => []
  | [c] => if pyIsSpace c then [' '] else [c]
  | c₁ :: c₂ :: rest =>
    if pyIsSpace c₁ && pyIsSpace c₂ then collapseWs (c₂ :: rest)
    else (if pyIsSpace c₁ then ' ' else c₁) :: collapseWs (c₂ :: rest)

/-- str.strip: drop leading and trailing whitespace. -/
def stripWs (s : List Char) : List Char :=
  ((s.dropWhile pyIsSpace).reverse.dropWhile pyIsSpace).reverse

/-- The body of consumer.normalize_text for string input (lines 119-122):
lower-case, collapse whitespace runs, strip the non-kept characters,
trim. -/
def normalizeCore (s : List Char) : List Char :=
  stripWs ((collapseWs (s.map pyToLower)).filter keepChar)

/-- consumer.normalize_text (lines 116-122) on string input.  Non-string
input returns the empty string; that branch is modelled at the call
sites (normalizeField below). -/
def normalize_text (s : String) : String :=
  ⟨normalizeCore s.data⟩

/-! ## difflib.SequenceMatcher

consumer.similarity (lines 124-125) is
SequenceMatcher(None, a, b).ratio().  With no junk predicate the
documented contract of find_longest_match is: among all maximal matching
blocks return the one starting earliest in a, and among those the one
starting earliest in b.  ratio sums the sizes of the matching blocks of
the Ratcliff-Obershelp recursion and returns 2*M/T (T the total length),
or 1.0 when both strings are empty.  The autojunk heuristic of the
library only activates for second strings of length at least 200, which
no value below reaches; its branch is therefore not modelled. -/

/-- Length of the longest common prefix of two character lists. -/
def commonRun : List Char → List Char → Nat
  | a :: as, b :: bs => if a = b then commonRun as bs + 1 else 0
  | _, _ => 0

/-- One candidate step of find_longest_match: a match of size
commonRun (a.drop i) (b.drop j) at (i, j) replaces the best found so far
only when strictly longer, so the scan order (i ascending, then j
ascending) realises the earliest-in-a, then earliest-in-b contract. -/
def betterMatch (a b : List Char) (best : Nat × Nat × Nat) (i j : Nat) : Nat × Nat × Nat :=
  let k := commonRun (a.drop i) (b.drop j)
  if best.2.2 < k then (i, j, k) else best

/-- find_longest_match over the whole of both strings. -/
def findLongestMatch (a b : List Char) : Nat × Nat × Nat :=
  (List.range (a.length + 1)).foldl
    (fun best i =>
      (List.range (b.length + 1)).foldl (fun best j => betterMatch a b best i j) best)
    (0, 0, 0)

/-- Total size of the matching blocks (get_matching_blocks): recurse left
and right of the longest match.  Each recursive call strictly decreases
the total length of the two lists (the match has size at least one), so
a fuel of total length plus one always suffices and the fuel-zero branch
is never reached from matchesCount. -/
def matchesCountAux : Nat → List Char → List Char → Nat
  | 0, _, _ => 0
  | fuel + 1, a, b =>
    let m := findLongestMatch a b
    if m.2.2 = 0 then 0
    else
      matchesCountAux fuel (a.take m.1) (b.take m.2.1) + m.2.2 +
        matchesCountAux fuel (a.drop (m.1 + m.2.2)) (b.drop (m.2.1 + m.2.2))

def matchesCount (a b : List Char) : Nat :=
  matchesCountAux (a.length + b.length + 1) a b

/-- SequenceMatcher.ratio as a rational: 2*M/T, and 1 when both strings
are empty (difflib._calculate_ratio). -/
def similarity (a b : String) : ℚ :=
  let T := a.data.length + b.data.length
  if T = 0 then 1 else (2 * matchesCount a.data b.data : ℚ) / T

/-! ## Events and similarity grouping (consumer.py lines 127-162) -/

/-- A loosely typed value found under the text or msg key of an event
dictionary: either a Python string, or some non-string value carrying
its truthiness and its str() rendering. -/
inductive FieldVal where
  | str (s : String)
  | other (truthy : Bool) (rendered : String)
deriving DecidableEq

/-- Python truthiness of a field value. -/
def FieldVal.isTruthy : FieldVal → Bool
  | .str s => !(s = "")
  | .other t _ => t

/-- str() of a field value. -/
def FieldVal.render : FieldVal → String
  | .str s => s
  | .other _ r => r

/-- An event record as consumed by group_similar_events: the optional
text and msg keys and the mandatory timestamp (the function subscripts
evt["timestamp"] unconditionally).  Timestamps are any linearly ordered
type, matching the Python comparisons with < and >. -/
structure Event (τ : Type) where
  text : Option FieldVal := none
  msg : Option FieldVal := none
  timestamp : τ
deriving DecidableEq

/-- consumer.py line 133: evt.get("text", "") or evt.get("msg", "") or "". -/
def Event.rawText {τ : Type} (e : Event τ) : FieldVal :=
  let t := e.text.getD (.str "")
  if t.isTruthy then t
  else
    let m := e.msg.getD (.str "")
    if m.isTruthy then m else .str ""

/-- normalize_text applied to a field value: the isinstance guard of
line 117 returns the empty string on non-string input. -/
def normalizeField : FieldVal → String
  | .str s => normalize_text s
  | .other _ _ => ""

/-- The normalized description of an event (line 134). -/
def Event.norm {τ : Type} (e : Event τ) : String :=
  normalizeField e.rawText

/-- A group as built by group_similar_events, with the internal norm key
still present. -/
structure IGroup (τ : Type) where
  sample_text : FieldVal
  norm : String
  count : Nat
  timestamp_first : τ
  timestamp_last : τ
deriving DecidableEq

/-- A group as returned to the caller, after the pop of the norm key
(lines 159-161). -/
structure Group (τ : Type) where
  sample_text : FieldVal
  count : Nat
  timestamp_first : τ
  timestamp_last : τ
deriving DecidableEq

def IGroup.toPublic {τ : Type} (g : IGroup τ) : Group τ :=
  ⟨g.sample_text, g.count, g.timestamp_first, g.timestamp_last⟩

variable {τ : Type}

/-- The inner loop of group_similar_events for one event (lines 136-157):
scan the existing groups in creation order, merge into the first group
whose similarity with the normalized text reaches the threshold
(updating count and the two timestamps), else append a fresh group. -/
def addToGroups [LinearOrder τ] (threshold : ℚ) (e : Event τ) :
    List (IGroup τ) → List (IGroup τ)
  | [] => [⟨e.rawText, e.norm, 1, e.timestamp, e.timestamp⟩]
  | g :: gs =>
    if threshold ≤ similarity g.norm e.norm then
      { g with
        count := g.count + 1
        timestamp_last := if g.timestamp_last < e.timestamp then e.timestamp else g.timestamp_last
        timestamp_first := if e.timestamp < g.timestamp_first then e.timestamp else g.timestamp_first } :: gs
    else g :: addToGroups threshold e gs

/-- The full grouping pass over the input order, internal view. -/
def internalGroups [LinearOrder τ] (events : List (Event τ)) (threshold : ℚ) :
    List (IGroup τ) :=
  events.foldl (fun gs e => addToGroups threshold e gs) []

/-- consumer.group_similar_events (lines 127-162); the default threshold
at the call site is 0.95. -/
def group_similar_events [LinearOrder τ] (events : List (Event τ)) (threshold : ℚ) :
    List (Group τ) :=
  (internalGroups events threshold).map IGroup.toPublic

/-! ### C1: the group counts partition the events -/

theorem addToGroups_count_sum [LinearOrder τ] (threshold : ℚ) (e : Event τ)
    (gs : List (IGroup τ)) :
    ((addToGroups threshold e gs).map IGroup.count).sum
      = (gs.map IGroup.count).sum + 1 := by
  induction gs with
  | nil => simp [addToGroups]
  | cons g gs ih =>
    by_cases h : threshold ≤ similarity g.norm e.norm
    · simp only [addToGroups, if_pos h, List.map_cons, List.sum_cons]
      omega
    · simp only [addToGroups, if_neg h, List.map_cons, List.sum_cons, ih]
      omega

theorem internalGroups_count_sum [LinearOrder τ] (threshold : ℚ) :
    ∀ (events : List (Event τ)) (gs : List (IGroup τ)),
      ((events.foldl (fun gs e => addToGroups threshold e gs) gs).map IGroup.count).sum
        = (gs.map IGroup.count).sum + events.length := by
  intro events
  induction events with
  | nil => simp
  | cons e events ih =>
    intro gs
    simp only [List.foldl_cons, ih, addToGroups_count_sum, List.length_cons]
    omega

/-- C1: for every finite sequence of event records each carrying a
timestamp, the groups returned by group_similar_events satisfy
sum of the group counts = number of events: every input event is counted
in exactly one group. -/
theorem grouping_counts_partition_events [LinearOrder τ]
    (events : List (Event τ)) (threshold : ℚ) :
    ((group_similar_events events threshold).map Group.count).sum = events.length := by
  have h := internalGroups_count_sum (τ := τ) threshold events []
  simp only [List.map_nil, List.sum_nil, Nat.zero_add] at h
  unfold group_similar_events internalGroups
  rw [List.map_map]
  have : Group.count ∘ IGroup.toPublic = IGroup.count (τ := τ) := rfl
  rw [this, h]

/-! ### C2: idempotence of normalization

normalize_text collapses whitespace runs before stripping the non-kept
characters, so stripping can create a new run of two spaces that only a
second pass collapses ("a . b" becomes "a  b").  From the second
application on the function is stable, proved below. -/

theorem mem_of_lookup_eq_some {l : List (Char × Char)} {a b : Char}
    (h : List.lookup a l = some b) : (a, b) ∈ l := by
  induction l with
  | nil => simp [List.lookup] at h
  | cons p l ih =>
    obtain ⟨k, v⟩ := p
    rw [List.lookup_cons] at h
    cases hk : a == k with
    | true =>
      rw [hk] at h
      simp only [Option.some.injEq] at h
      subst h
      have hak : a = k := eq_of_beq hk
      subst hak
      exact List.mem_cons_self _ _
    | false =>
      rw [hk] at h
      exact List.mem_cons_of_mem _ (ih h)

theorem pyToLower_idem (c : Char) : pyToLower (pyToLower c) = pyToLower c := by
  unfold pyToLower
  cases h : lowerTable.lookup c with
  | none => simp [h]
  | some v =>
    simp only [h, Option.getD_some]
    have hv : (c, v) ∈ lowerTable := mem_of_lookup_eq_some h
    have hall : ∀ p ∈ lowerTable, lowerTable.lookup p.2 = none := by decide
    have := hall (c, v) hv
    simp [this]

/-- The pointwise invariant of normalization output: kept by the strip
regex, fixed by lower-casing, and the only whitespace is the space. -/
def GoodChar (c : Char) : Prop :=
  keepChar c = true ∧ pyToLower c = c ∧ (pyIsSpace c = true → c = ' ')

/-- Adjacent characters are never both whitespace. -/
def SpacedOk (a b : Char) : Prop :=
  ¬(pyIsSpace a = true ∧ pyIsSpace b = true)

theorem spacedOk_symm {a b : Char} (h : SpacedOk a b) : SpacedOk b a :=
  fun hab => h ⟨hab.2, hab.1⟩

theorem collapseWs_mem :
    ∀ (s : List Char) (c : Char), c ∈ collapseWs s →
      c = ' ' ∨ (c ∈ s ∧ pyIsSpace c = false) := by
  intro s
  induction s with
  | nil => simp [collapseWs]
  | cons c₁ rest ih =>
    cases rest with
    | nil =>
      intro c hc
      by_cases h : pyIsSpace c₁ = true
      · simp only [collapseWs, if_pos h, List.mem_singleton] at hc
        exact Or.inl hc
      · simp only [collapseWs, if_neg h, List.mem_singleton] at hc
        subst hc
        exact Or.inr ⟨List.mem_singleton_self _, Bool.not_eq_true _ ▸ by simpa using h⟩
    | cons c₂ rest2 =>
      intro c hc
      rw [collapseWs] at hc
      by_cases h12 : (pyIsSpace c₁ && pyIsSpace c₂) = true
      · rw [if_pos h12] at hc
        rcases ih c hc with h | ⟨hm, hs⟩
        · exact Or.inl h
        · exact Or.inr ⟨List.mem_cons_of_mem _ hm, hs⟩
      · rw [if_neg h12] at hc
        rcases List.mem_cons.mp hc with h | h
        · by_cases h1 : pyIsSpace c₁ = true
          · rw [if_pos h1] at h
            exact Or.inl h
          · rw [if_neg h1] at h
            subst h
            exact Or.inr ⟨List.mem_cons_self _ _, by simpa using h1⟩
        · rcases ih c h with h | ⟨hm, hs⟩
          · exact Or.inl h
          · exact Or.inr ⟨List.mem_cons_of_mem _ hm, hs⟩

theorem collapseWs_head_of_not_space {c : Char} (h : pyIsSpace c = false)
    (l : List Char) : (collapseWs (c :: l)).head? = some c := by
  cases l with
  | nil => simp [collapseWs, h]
  | cons c₂ rest => simp [collapseWs, h]

theorem collapseWs_chain' : ∀ s : List Char, List.Chain' SpacedOk (collapseWs s) := by
  intro s
  induction s with
  | nil => simp [collapseWs]
  | cons c₁ rest ih =>
    cases rest with
    | nil =>
      by_cases h : pyIsSpace c₁ = true <;>
        simp [collapseWs, h, List.chain'_singleton]
    | cons c₂ rest2 =>
      rw [collapseWs]
      by_cases h12 : (pyIsSpace c₁ && pyIsSpace c₂) = true
      · rw [if_pos h12]; exact ih
      · rw [if_neg h12]
        apply List.chain'_cons'.mpr
        refine ⟨?_, ih⟩
        intro b hb
        by_cases h1 : pyIsSpace c₁ = true
        · have h2 : pyIsSpace c₂ = false := by
            revert h12
            cases hh : pyIsSpace c₂ <;> simp [h1, hh]
          rw [collapseWs_head_of_not_space h2] at hb
          simp only [Option.mem_def, Option.some.injEq] at hb
          subst hb
          rw [if_pos h1]
          exact fun hab => by simp [h2] at hab
        · rw [if_neg h1]
          exact fun hab => h1 hab.1

theorem collapseWs_eq_self :
    ∀ {s : List Char}, List.Chain' SpacedOk s →
      (∀ c ∈ s, pyIsSpace c = true → c = ' ') → collapseWs s = s := by
  intro s
  induction s with
  | nil => intro _ _; rfl
  | cons c₁ rest ih =>
    cases rest with
    | nil =>
      intro _ hsp
      by_cases h : pyIsSpace c₁ = true
      · simp only [collapseWs, if_pos h]
        rw [hsp c₁ (List.mem_singleton_self _) h]
      · simp [collapseWs, h]
    | cons c₂ rest2 =>
      intro hch hsp
      rw [collapseWs]
      have hR : SpacedOk c₁ c₂ := (List.chain'_cons.mp hch).1
      have h12 : (pyIsSpace c₁ && pyIsSpace c₂) = false := by
        cases ha : pyIsSpace c₁ <;> cases hb : pyIsSpace c₂ <;>
          simp_all [SpacedOk]
      rw [if_neg (by simp [h12])]
      have htail := ih (hch.tail) (fun c hc => hsp c (List.mem_cons_of_mem _ hc))
      rw [htail]
      by_cases h1 : pyIsSpace c₁ = true
      · rw [if_pos h1, hsp c₁ (List.mem_cons_self _ _) h1]
      · rw [if_neg h1]

theorem head?_dropWhile_false {p : Char → Bool} :
    ∀ {l : List Char} {c : Char}, (List.dropWhile p l).head? = some c → p c = false := by
  intro l
  induction l with
  | nil => intro c hc; simp [List.dropWhile] at hc
  | cons a l ih =>
    intro c hc
    rw [List.dropWhile_cons] at hc
    by_cases h : p a = true
    · rw [if_pos h] at hc; exact ih hc
    · rw [if_neg h] at hc
      simp only [List.head?_cons, Option.some.injEq] at hc
      subst hc
      simpa using h

theorem dropWhile_eq_self_of_head {p : Char → Bool} {l : List Char}
    (h : ∀ c, l.head? = some c → p c = false) : List.dropWhile p l = l := by
  cases l with
  | nil => rfl
  | cons a l =>
    rw [List.dropWhile_cons, if_neg]
    simp [h a rfl]

theorem stripWs_subset {s : List Char} {c : Char} (h : c ∈ stripWs s) : c ∈ s := by
  unfold stripWs at h
  rw [List.mem_reverse] at h
  have h1 := (List.dropWhile_suffix pyIsSpace).subset h
  rw [List.mem_reverse] at h1
  exact (List.dropWhile_suffix pyIsSpace).subset h1

theorem chain'_reverse_of {l : List Char} (h : List.Chain' SpacedOk l) :
    List.Chain' SpacedOk l.reverse :=
  List.chain'_reverse.mpr (h.imp fun _ _ hab => spacedOk_symm hab)

theorem stripWs_chain' {s : List Char} (h : List.Chain' SpacedOk s) :
    List.Chain' SpacedOk (stripWs s) := by
  unfold stripWs
  exact chain'_reverse_of
    (((chain'_reverse_of (h.suffix (List.dropWhile_suffix _))).suffix
      (List.dropWhile_suffix _)))

theorem stripWs_getLast? {s : List Char} {c : Char}
    (h : (stripWs s).getLast? = some c) : pyIsSpace c = false := by
  unfold stripWs at h
  rw [List.getLast?_reverse] at h
  exact head?_dropWhile_false h

theorem stripWs_head? {s : List Char} {c : Char}
    (h : (stripWs s).head? = some c) : pyIsSpace c = false := by
  unfold stripWs at h
  rw [List.head?_reverse] at h
  set Y := List.dropWhile pyIsSpace ((List.dropWhile pyIsSpace s).reverse) with hY
  obtain ⟨pre, hpre⟩ := List.dropWhile_suffix
    (l := (List.dropWhile pyIsSpace s).reverse) pyIsSpace
  cases hYc : Y with
  | nil => rw [hYc] at h; simp at h
  | cons d ds =>
    have hne : Y ≠ [] := by rw [hYc]; simp
    have hlast : Y.getLast? = ((List.dropWhile pyIsSpace s).reverse).getLast? := by
      conv_rhs => rw [← hpre]
      rw [List.getLast?_append_of_ne_nil _ hne]
    rw [hlast, List.getLast?_reverse] at h
    exact head?_dropWhile_false h

theorem stripWs_eq_self {s : List Char}
    (h1 : ∀ c, s.head? = some c → pyIsSpace c = false)
    (h2 : ∀ c, s.getLast? = some c → pyIsSpace c = false) : stripWs s = s := by
  unfold stripWs
  rw [dropWhile_eq_self_of_head h1]
  rw [dropWhile_eq_self_of_head (fun c hc => h2 c (by rwa [List.head?_reverse] at hc))]
  exact List.reverse_reverse s

theorem goodChar_space : GoodChar ' ' := by
  refine ⟨by decide, by decide, fun _ => rfl⟩

theorem normOut (s : List Char) : ∀ c ∈ normalizeCore s, GoodChar c := by
  intro c hc
  have hc' : c ∈ (collapseWs (s.map pyToLower)).filter keepChar := stripWs_subset hc
  have hkeep : keepChar c = true := (List.mem_filter.mp hc').2
  have hmem : c ∈ collapseWs (s.map pyToLower) := (List.mem_filter.mp hc').1
  rcases collapseWs_mem _ _ hmem with h | ⟨hmem2, hns⟩
  · subst h; exact goodChar_space
  · rcases List.mem_map.mp hmem2 with ⟨x, _, rfl⟩
    refine ⟨hkeep, pyToLower_idem x, fun hsp => ?_⟩
    rw [hns] at hsp
    cases hsp

theorem map_pyToLower_of_good {t : List Char} (ht : ∀ c ∈ t, GoodChar c) :
    t.map pyToLower = t := by
  rw [List.map_congr_left (fun c hc => (ht c hc).2.1)]
  exact List.map_id t

theorem normalizeCore_of_good {t : List Char} (ht : ∀ c ∈ t, GoodChar c) :
    normalizeCore t = stripWs (collapseWs t) := by
  unfold normalizeCore
  rw [map_pyToLower_of_good ht]
  rw [List.filter_eq_self.mpr]
  intro c hc
  rcases collapseWs_mem _ _ hc with h | ⟨hm, _⟩
  · subst h; exact goodChar_space.1
  · exact (ht c hm).1

theorem normalizeCore_fix {u : List Char}
    (hg : ∀ c ∈ u, GoodChar c)
    (hch : List.Chain' SpacedOk u)
    (hhead : ∀ c, u.head? = some c → pyIsSpace c = false)
    (hlast : ∀ c, u.getLast? = some c → pyIsSpace c = false) :
    normalizeCore u = u := by
  rw [normalizeCore_of_good hg]
  rw [collapseWs_eq_self hch (fun c hc hsp => (hg c hc).2.2 hsp)]
  exact stripWs_eq_self hhead hlast

theorem normalizeCore_triple (l : List Char) :
    normalizeCore (normalizeCore (normalizeCore l)) = normalizeCore (normalizeCore l) := by
  have ht : ∀ c ∈ normalizeCore l, GoodChar c := normOut l
  have h2 : normalizeCore (normalizeCore l) = stripWs (collapseWs (normalizeCore l)) :=
    normalizeCore_of_good ht
  refine normalizeCore_fix (normOut _) ?_ ?_ ?_
  · rw [h2]; exact stripWs_chain' (collapseWs_chain' _)
  · intro c hc; rw [h2] at hc; exact stripWs_head? hc
  · intro c hc; rw [h2] at hc; exact stripWs_getLast? hc

/-- C2 counterexample: normalize_text is not idempotent.  On "a . b" the
whitespace collapse runs before the punctuation strip, so removing the
dot leaves two adjacent spaces that a single pass never collapses:
one application gives "a  b", two applications give "a b". -/
theorem normalize_text_not_idempotent :
    normalize_text (normalize_text "a . b") ≠ normalize_text "a . b" := by decide

/-- C2 (amended): normalize_text is idempotent from the second
application on: for every string s, applying the normalization three
times yields the same string as applying it twice.  (The claim as
stated, with two applications versus one, fails: see the
counterexample.) -/
theorem normalize_text_twice_idempotent (s : String) :
    normalize_text (normalize_text (normalize_text s))
      = normalize_text (normalize_text s) :=
  congrArg String.mk (normalizeCore_triple s.data)

/-! ### Similarity against an empty normalized string -/

theorem commonRun_nil_right (a : List Char) : commonRun a [] = 0 := by
  cases a <;> rfl

theorem commonRun_nil_left (b : List Char) : commonRun [] b = 0 := by
  cases b <;> rfl

theorem findLongestMatch_nil_right (a : List Char) :
    findLongestMatch a [] = (0, 0, 0) := by
  unfold findLongestMatch
  have inner : ∀ (best : Nat × Nat × Nat) (i : Nat),
      (List.range (List.length ([] : List Char) + 1)).foldl
        (fun b j => betterMatch a [] b i j) best = best := by
    intro best i
    show (List.range 1).foldl _ best = best
    rw [show List.range 1 = [0] from rfl]
    simp [List.foldl, betterMatch, commonRun_nil_right]
  have outer : ∀ (L : List Nat) (best : Nat × Nat × Nat),
      L.foldl (fun best i =>
        (List.range (List.length ([] : List Char) + 1)).foldl
          (fun b j => betterMatch a [] b i j) best) best = best := by
    intro L
    induction L with
    | nil => intro best; rfl
    | cons x L ih => intro best; rw [List.foldl_cons, inner]; exact ih best
  exact outer _ _

theorem findLongestMatch_nil_left (b : List Char) :
    findLongestMatch [] b = (0, 0, 0) := by
  unfold findLongestMatch
  have inner : ∀ (best : Nat × Nat × Nat) (i : Nat),
      (List.range (b.length + 1)).foldl
        (fun bst j => betterMatch [] b bst i j) best = best := by
    intro best i
    have h : ∀ (L : List Nat) (bst : Nat × Nat × Nat),
        L.foldl (fun bst j => betterMatch [] b bst i j) bst = bst := by
      intro L
      induction L with
      | nil => intro bst; rfl
      | cons x L ih =>
        intro bst
        rw [List.foldl_cons]
        have : betterMatch [] b bst i x = bst := by
          unfold betterMatch
          simp [List.drop_nil, commonRun_nil_left]
        rw [this]; exact ih bst
    exact h _ _
  have outer : ∀ (L : List Nat) (best : Nat × Nat × Nat),
      L.foldl (fun best i =>
        (List.range (b.length + 1)).foldl
          (fun bst j => betterMatch [] b bst i j) best) best = best := by
    intro L
    induction L with
    | nil => intro best; rfl
    | cons x L ih => intro best; rw [List.foldl_cons, inner]; exact ih best
  exact outer _ _

theorem matchesCount_nil_right (a : List Char) : matchesCount a [] = 0 := by
  unfold matchesCount matchesCountAux
  simp [findLongestMatch_nil_right]

theorem matchesCount_nil_left (b : List Char) : matchesCount [] b = 0 := by
  unfold matchesCount matchesCountAux
  simp [findLongestMatch_nil_left]

theorem string_ne_empty_data {a : String} (h : a ≠ "") : a.data.length ≠ 0 := by
  intro h0
  exact h (String.ext (List.length_eq_zero.mp h0))

theorem similarity_empty_right {a : String} (h : a ≠ "") : similarity a "" = 0 := by
  unfold similarity
  rw [if_neg (by simpa using string_ne_empty_data h)]
  have : matchesCount a.data "".data = 0 := matchesCount_nil_right a.data
  rw [this]
  norm_num

theorem similarity_empty_left {b : String} (h : b ≠ "") : similarity "" b = 0 := by
  unfold similarity
  rw [if_neg (by simpa using string_ne_empty_data h)]
  have : matchesCount "".data b.data = 0 := matchesCount_nil_left b.data
  rw [this]
  norm_num

theorem similarity_empty_empty : similarity "" "" = 1 := rfl

theorem not_thr_le_sim_norm_empty {m : String} (hm : m ≠ "") :
    ¬ ((19 : ℚ)/20 ≤ similarity m "") := by
  rw [similarity_empty_right hm]; norm_num

theorem not_thr_le_sim_empty_norm {m : String} (hm : m ≠ "") :
    ¬ ((19 : ℚ)/20 ≤ similarity "" m) := by
  rw [similarity_empty_left hm]; norm_num

theorem thr_le_sim_empty_empty : (19 : ℚ)/20 ≤ similarity "" "" := by
  rw [similarity_empty_empty]; norm_num

/-! ### C3: the two near-duplicate door events form one group -/

def doorE1 {τ : Type} (t : τ) : Event τ :=
  { text := some (.str "Door opened"), timestamp := t }

def doorE2 {τ : Type} (t : τ) : Event τ :=
  { text := some (.str "door  opened!!"), timestamp := t }

/-- C3: for any two comparable timestamps T1 < T2, clustering the events
with texts "Door opened" and "door  opened!!" at threshold 0.95 yields
exactly one group with count 2, timestamp_first T1 and
timestamp_last T2 (both texts normalize to "door opened", whose
self-similarity is 1). -/
theorem near_duplicate_pair_one_group {τ : Type} [LinearOrder τ]
    (T1 T2 : τ) (h : T1 < T2) :
    group_similar_events [doorE1 T1, doorE2 T2] (19/20)
      = [{ sample_text := .str "Door opened", count := 2,
           timestamp_first := T1, timestamp_last := T2 }] := by
  have hn1 : (doorE1 T1).norm = "door opened" := by
    show normalizeField (doorE1 T1).rawText = _
    rw [show (doorE1 T1).rawText = .str "Door opened" from rfl]
    decide
  have hn2 : (doorE2 T2).norm = "door opened" := by
    show normalizeField (doorE2 T2).rawText = _
    rw [show (doorE2 T2).rawText = .str "door  opened!!" from rfl]
    decide
  have hr1 : (doorE1 T1).rawText = .str "Door opened" := rfl
  have hsim : (19 : ℚ)/20 ≤ similarity "door opened" "door opened" := by
    have hmc : matchesCount "door opened".data "door opened".data = 11 := by decide
    unfold similarity
    rw [hmc]
    norm_num
  unfold group_similar_events internalGroups
  rw [List.foldl_cons, List.foldl_cons, List.foldl_nil]
  rw [show addToGroups (19/20) (doorE1 T1) ([] : List (IGroup τ))
        = [⟨(doorE1 T1).rawText, (doorE1 T1).norm, 1, T1, T1⟩] from rfl]
  rw [addToGroups]
  rw [if_pos (by rw [hn1, hn2]; exact hsim)]
  simp only [IGroup.toPublic, List.map_cons, List.map_nil]
  rw [show (doorE2 T2).timestamp = T2 from rfl]
  rw [if_pos h, if_neg (not_lt.mpr h.le), hr1]

/-- Witness for C3 at concrete integer timestamps 0 < 1. -/
theorem near_duplicate_pair_one_group_witness :
    (0 : ℤ) < 1 ∧
      group_similar_events [doorE1 (0 : ℤ), doorE2 (1 : ℤ)] (19/20)
        = [{ sample_text := .str "Door opened", count := 2,
             timestamp_first := 0, timestamp_last := 1 }] :=
  ⟨by decide, near_duplicate_pair_one_group 0 1 (by decide)⟩

/-! ### C10: events with an empty normalized description -/

theorem addToGroups_norm_mem [LinearOrder τ] (threshold : ℚ) (e : Event τ) :
    ∀ (gs : List (IGroup τ)) (g' : IGroup τ), g' ∈ addToGroups threshold e gs →
      g'.norm = e.norm ∨ ∃ g ∈ gs, g'.norm = g.norm := by
  intro gs
  induction gs with
  | nil =>
    intro g' hg'
    simp only [addToGroups, List.mem_singleton] at hg'
    subst hg'
    exact Or.inl rfl
  | cons g gs ih =>
    intro g' hg'
    rw [addToGroups] at hg'
    by_cases hm : threshold ≤ similarity g.norm e.norm
    · rw [if_pos hm] at hg'
      rcases List.mem_cons.mp hg' with h | h
      · exact Or.inr ⟨g, List.mem_cons_self _ _, by rw [h]⟩
      · exact Or.inr ⟨g', List.mem_cons_of_mem _ h, rfl⟩
    · rw [if_neg hm] at hg'
      rcases List.mem_cons.mp hg' with h | h
      · exact Or.inr ⟨g, List.mem_cons_self _ _, by rw [h]⟩
      · rcases ih g' h with h1 | ⟨g₂, hg₂, h2⟩
        · exact Or.inl h1
        · exact Or.inr ⟨g₂, List.mem_cons_of_mem _ hg₂, h2⟩

theorem addToGroups_filter_empty_of_ne [LinearOrder τ] {e : Event τ}
    (he : e.norm ≠ "") (gs : List (IGroup τ)) :
    (((addToGroups (19/20) e gs).filter fun g => g.norm == "").map
        fun g => (g.sample_text, g.count))
      = ((gs.filter fun g => g.norm == "").map fun g => (g.sample_text, g.count)) := by
  induction gs with
  | nil =>
    simp only [addToGroups, List.filter_nil, List.map_nil]
    rw [List.filter_cons]
    simp [he]
  | cons g gs ih =>
    rw [addToGroups]
    by_cases hmatch : (19 : ℚ)/20 ≤ similarity g.norm e.norm
    · rw [if_pos hmatch]
      by_cases hg : g.norm = ""
      · exact absurd hmatch (by rw [hg]; exact not_thr_le_sim_empty_norm he)
      · rw [List.filter_cons, List.filter_cons]
        simp [hg]
    · rw [if_neg hmatch]
      rw [List.filter_cons, List.filter_cons]
      by_cases hg : g.norm = "" <;> simp [hg, ih]

theorem addToGroups_filter_empty_new [LinearOrder τ] {e : Event τ}
    (he : e.norm = "") :
    ∀ (gs : List (IGroup τ)), (∀ g ∈ gs, g.norm ≠ "") →
    (((addToGroups (19/20) e gs).filter fun g => g.norm == "").map
        fun g => (g.sample_text, g.count))
      = [(e.rawText, 1)] := by
  intro gs
  induction gs with
  | nil =>
    intro _
    simp only [addToGroups, List.filter_nil, List.map_nil]
    rw [List.filter_cons]
    simp [he]
  | cons g gs ih =>
    intro hgs
    have hg : g.norm ≠ "" := hgs g (List.mem_cons_self _ _)
    have hnm : ¬ ((19 : ℚ)/20 ≤ similarity g.norm e.norm) := by
      rw [he]; exact not_thr_le_sim_norm_empty hg
    rw [addToGroups, if_neg hnm, List.filter_cons]
    simp only [hg, beq_iff_eq, if_neg hg]
    exact ih (fun g' hg' => hgs g' (List.mem_cons_of_mem _ hg'))

theorem addToGroups_filter_empty_upd [LinearOrder τ] {e : Event τ}
    (he : e.norm = "") :
    ∀ (gs : List (IGroup τ)) (s : FieldVal) (k : Nat),
    ((gs.filter fun g => g.norm == "").map fun g => (g.sample_text, g.count)) = [(s, k)] →
    (((addToGroups (19/20) e gs).filter fun g => g.norm == "").map
        fun g => (g.sample_text, g.count))
      = [(s, k + 1)] := by
  intro gs
  induction gs with
  | nil => intro s k hgs; simp at hgs
  | cons g gs ih =>
    intro s k hgs
    rw [addToGroups]
    by_cases hg : g.norm = ""
    · have hm : (19 : ℚ)/20 ≤ similarity g.norm e.norm := by
        rw [hg, he]; exact thr_le_sim_empty_empty
      rw [if_pos hm]
      rw [List.filter_cons] at hgs
      rw [List.filter_cons]
      simp only [hg, beq_iff_eq, if_pos trivial, beq_self_eq_true, if_true] at hgs ⊢
      simp only [List.map_cons] at hgs ⊢
      have hsk : (g.sample_text, g.count) = (s, k) ∧
          ((gs.filter fun g => g.norm == "").map fun g => (g.sample_text, g.count)) = [] := by
        cases hmap : (gs.filter fun g => g.norm == "").map fun g => (g.sample_text, g.count) with
        | nil => rw [hmap] at hgs; simpa using hgs
        | cons x xs => rw [hmap] at hgs; simp at hgs
      obtain ⟨hsk1, hsk2⟩ := hsk
      rw [hsk2]
      have h1 : g.sample_text = s := congrArg Prod.fst hsk1
      have h2 : g.count = k := congrArg Prod.snd hsk1
      rw [h1, h2]
    · have hnm : ¬ ((19 : ℚ)/20 ≤ similarity g.norm e.norm) := by
        rw [he]; exact not_thr_le_sim_norm_empty hg
      rw [if_neg hnm]
      rw [List.filter_cons] at hgs
      rw [List.filter_cons]
      simp only [hg, beq_iff_eq, if_neg hg] at hgs ⊢
      exact ih s k hgs

theorem fold_filter_empty_upd [LinearOrder τ] :
    ∀ (events : List (Event τ)) (gs : List (IGroup τ)) (s : FieldVal) (k : Nat),
      ((gs.filter fun g => g.norm == "").map fun g => (g.sample_text, g.count)) = [(s, k)] →
      (((events.foldl (fun gs e => addToGroups (19/20) e gs) gs).filter
          fun g => g.norm == "").map fun g => (g.sample_text, g.count))
        = [(s, k + events.countP fun e => e.norm == "")] := by
  intro events
  induction events with
  | nil => intro gs s k h; simpa using h
  | cons e events ih =>
    intro gs s k h
    rw [List.foldl_cons]
    by_cases he : e.norm = ""
    · have step := addToGroups_filter_empty_upd he gs s k h
      have := ih _ s (k + 1) step
      rw [this, List.countP_cons_of_pos _ _ (by simpa using he)]
      congr 2
      omega
    · have step := (addToGroups_filter_empty_of_ne he gs).trans h
      have := ih _ s k step
      rw [this, List.countP_cons_of_neg _ _ (by simpa using he)]

theorem fold_filter_empty_first [LinearOrder τ] :
    ∀ (events : List (Event τ)) (gs : List (IGroup τ)) (e₀ : Event τ),
      (∀ g ∈ gs, g.norm ≠ "") →
      events.find? (fun e => e.norm == "") = some e₀ →
      (((events.foldl (fun gs e => addToGroups (19/20) e gs) gs).filter
          fun g => g.norm == "").map fun g => (g.sample_text, g.count))
        = [(e₀.rawText, events.countP fun e => e.norm == "")] := by
  intro events
  induction events with
  | nil => intro gs e₀ _ hf; simp at hf
  | cons e events ih =>
    intro gs e₀ hgs hf
    rw [List.foldl_cons]
    by_cases he : e.norm = ""
    · rw [List.find?_cons_of_pos _ (by simpa using he)] at hf
      have he₀ : e₀ = e := by simpa using hf.symm
      subst he₀
      have step := addToGroups_filter_empty_new he gs hgs
      have := fold_filter_empty_upd events _ e₀.rawText 1 step
      rw [this, List.countP_cons_of_pos _ _ (by simpa using he)]
      congr 2
      omega
    · rw [List.find?_cons_of_neg _ (by simpa using he)] at hf
      have hgs' : ∀ g' ∈ addToGroups (19/20) e gs, g'.norm ≠ "" := by
        intro g' hg'
        rcases addToGroups_norm_mem (19/20) e gs g' hg' with h1 | ⟨g₂, hg₂, h2⟩
        · rw [h1]; exact he
        · rw [h2]; exact hgs g₂ hg₂
      have := ih _ e₀ hgs' hf
      rw [this, List.countP_cons_of_neg _ _ (by simpa using he)]

/-- An event with no text key whose msg is the non-empty string
"alpha". -/
def msgAlphaEvent : Event ℤ :=
  { text := none, msg := some (.str "alpha"), timestamp := 0 }

/-- An event whose text normalizes to the empty string. -/
def bangEvent : Event ℤ :=
  { text := some (.str "!!!"), msg := none, timestamp := 0 }

/-- C10 counterexample.  The claim covers "events whose text field is
missing"; but an event with no text key and a non-empty msg string
resolves its description from msg ("alpha", normalizing to "alpha"), so
it does not merge with an event whose description normalizes to the
empty string: the two events named by the claim end up in two groups of
one event each, not in one single group. -/
theorem missing_text_not_merged :
    (group_similar_events [msgAlphaEvent, bangEvent] (19/20)).map Group.count
      = [1, 1] := by
  have hn1 : msgAlphaEvent.norm = "alpha" := by decide
  have hn2 : bangEvent.norm = "" := by decide
  unfold group_similar_events internalGroups
  rw [List.foldl_cons, List.foldl_cons, List.foldl_nil]
  rw [show addToGroups (19/20) msgAlphaEvent ([] : List (IGroup ℤ))
      = [⟨.str "alpha", msgAlphaEvent.norm, 1, 0, 0⟩] from rfl]
  rw [addToGroups]
  rw [if_neg (by rw [hn1, hn2]; exact not_thr_le_sim_norm_empty (by decide))]
  rfl

/-- C10 (amended): all events whose resolved description (text if
truthy, else msg if truthy, else the empty string) is non-string or
normalizes to the empty string are merged into one single group — the
internal group list contains exactly one group with empty normalized
key, its count is the number of such events, and its sample_text is the
resolved raw text of the first such event.  (As stated the claim also
covered events with a missing text key but a usable msg; the
counterexample shows those are grouped by their msg text instead.) -/
theorem empty_norm_events_single_group {τ : Type} [LinearOrder τ]
    (events : List (Event τ)) (e₀ : Event τ)
    (h : events.find? (fun e => e.norm == "") = some e₀) :
    (((internalGroups events (19/20)).filter fun g => g.norm == "").map
        fun g => (g.sample_text, g.count))
      = [(e₀.rawText, events.countP fun e => e.norm == "")] :=
  fold_filter_empty_first events [] e₀ (by simp) h

/-- Witness for C10 (amended): a single event normalizing to the empty
string forms the one empty-key group. -/
theorem empty_norm_events_single_group_witness :
    [bangEvent].find? (fun e => e.norm == "") = some bangEvent ∧
    (((internalGroups [bangEvent] (19/20)).filter fun g => g.norm == "").map
        fun g => (g.sample_text, g.count))
      = [(FieldVal.str "!!!", 1)] := by
  have hf : [bangEvent].find? (fun e => e.norm == "") = some bangEvent := by decide
  refine ⟨hf, ?_⟩
  have := empty_norm_events_single_group [bangEvent] bangEvent hf
  rw [this]
  decide

/-! ## Time bucketing and aggregation (server.py lines 242-300)

summarize_collection reads up to 5000 records from the store (a model
boundary: the function below receives the already-loaded list), resolves
each timestamp with to_datetime, buckets by 3-hour period or calendar
day, accumulates count, numeric scores and up to three sample texts,
emits one entry per bucket, sorts by the period or date key descending
and truncates.  app/main.py lines 68-129 contain the same aggregation
and emission logic verbatim (its 3h key carries a trailing "Z"; nothing
below depends on that suffix).

A resolved timestamp is a UTC instant; the string-parsing path of
to_datetime (datetime.fromisoformat) is a model boundary: records carry
the parsed instant, or none when the timestamp is missing or
unparsable, in which case the record is skipped. -/

/-- A UTC datetime as manipulated by summarize_collection. -/
structure Dt where
  year : Nat
  month : Nat
  day : Nat
  hour : Nat
  minute : Nat
  second : Nat
  microsecond : Nat
deriving DecidableEq

/-- Zero-padded decimal rendering used by datetime.isoformat. -/
def pad (w n : Nat) : String :=
  let s := Nat.repr n
  ⟨List.replicate (w - s.length) '0' ++ s.data⟩

/-- date.isoformat: YYYY-MM-DD. -/
def Dt.isoDate (d : Dt) : String :=
  pad 4 d.year ++ "-" ++ pad 2 d.month ++ "-" ++ pad 2 d.day

/-- datetime.isoformat of a UTC-aware instant: the microseconds part is
omitted when zero, and the UTC offset renders as +00:00. -/
def Dt.iso (d : Dt) : String :=
  d.isoDate ++ "T" ++ pad 2 d.hour ++ ":" ++ pad 2 d.minute ++ ":" ++ pad 2 d.second ++
    (if d.microsecond = 0 then "" else "." ++ pad 6 d.microsecond) ++ "+00:00"

/-- A value found under one of the score keys: numeric (int, float or
bool, which isinstance counts as int) or not. -/
inductive NumField where
  | num (q : ℚ)
  | nonNum
deriving DecidableEq

/-- A raw store record as summarize_collection sees it: the resolved
timestamp (none when to_datetime fails) and the loosely typed optional
fields the aggregation inspects. -/
structure SRecord where
  timestamp : Option Dt := none
  score : Option NumField := none
  value : Option NumField := none
  valor : Option NumField := none
  promedio : Option NumField := none
  text : Option FieldVal := none
  texto : Option FieldVal := none
  description : Option FieldVal := none
  msg : Option FieldVal := none
deriving DecidableEq

/-- server.extract_score (lines 128-133): the first of score, value,
valor, promedio holding a numeric value; non-numeric values fall
through to the next key. -/
def extract_score (ev : SRecord) : Option ℚ :=
  match ev.score with
  | some (.num q) => some q
  | _ =>
    match ev.value with
    | some (.num q) => some q
    | _ =>
      match ev.valor with
      | some (.num q) => some q
      | _ =>
        match ev.promedio with
        | some (.num q) => some q
        | _ => none

/-- The sample-text chain of line 279: the first truthy of text, texto,
description, msg rendered with str(); nothing is appended when all are
falsy or missing. -/
def SRecord.sampleText (ev : SRecord) : Option String :=
  let pick : Option FieldVal → Option FieldVal → Option FieldVal := fun a b =>
    match a with
    | some v => if v.isTruthy then some v else b
    | none => b
  match pick ev.text (pick ev.texto (pick ev.description ev.msg)) with
  | some v => if v.isTruthy then some v.render else none
  | none => none

/-- One bucket of the aggregation dict: its key string (the value stored
under period or date), tipo, count, collected scores and up to three
sample texts. -/
structure BucketData where
  key : String
  tipo : String
  count : Nat
  scores : List ℚ
  texts : List String
deriving DecidableEq

/-- The bucket key of a resolved instant (lines 258-272): mode "3h"
truncates to the hour, floors the hour to a multiple of three and
renders isoformat; any other mode uses the calendar date. -/
def bucketKey (mode : String) (d : Dt) : String :=
  if mode = "3h" then
    let d0 : Dt := { d with minute := 0, second := 0, microsecond := 0 }
    Dt.iso { d0 with hour := d0.hour / 3 * 3 }
  else d.isoDate

def newBucket (mode key : String) : BucketData :=
  ⟨key, if mode = "3h" then "3h" else "dia", 0, [], []⟩

/-- Lines 274-281: count, optional score, and sample text while fewer
than three were collected. -/
def addRecord (b : BucketData) (ev : SRecord) : BucketData :=
  { b with
    count := b.count + 1
    scores := match extract_score ev with
              | some q => b.scores ++ [q]
              | none => b.scores
    texts := if b.texts.length < 3 then
               match ev.sampleText with
               | some t => b.texts ++ [t]
               | none => b.texts
             else b.texts }

/-- buckets.setdefault followed by the in-place mutation, on the
insertion-ordered association list a Python dict is. -/
def updBuckets (mode key : String) (ev : SRecord) : List BucketData → List BucketData
  | [] => [addRecord (newBucket mode key) ev]
  | b :: bs => if b.key = key then addRecord b ev :: bs else b :: updBuckets mode key ev bs

/-- One iteration of the record loop: records with an unresolvable
timestamp are skipped, the rest land in their bucket. -/
def bucketStep (mode : String) (bs : List BucketData) (ev : SRecord) : List BucketData :=
  match ev.timestamp with
  | none => bs
  | some d => updBuckets mode (bucketKey mode d) ev bs

/-- The bucket-building fold over the raw records (lines 252-281). -/
def bucketFold (raw : List SRecord) (mode : String) : List BucketData :=
  raw.foldl (bucketStep mode) []

/-- The dynamically typed score field of an emitted entry: a float or
the placeholder dash string. -/
inductive ScoreOut where
  | num (q : ℚ)
  | dash
deriving DecidableEq

/-- One emitted summary entry (lines 283-296); exactly one of period and
date is present depending on the mode. -/
structure SummaryEntry where
  text : String
  score : ScoreOut
  hash : String
  tipo : String
  period : Option String
  date : Option String
deriving DecidableEq

/-- Lines 284-296: average score over the collected scores, or the
placeholder when none were collected; up to three sample texts joined
with " | " or the "No samples" placeholder; the evidence-count label. -/
def emitEntry (mode : String) (b : BucketData) : SummaryEntry :=
  let avg : Option ℚ := if b.scores = [] then none else some (b.scores.sum / b.scores.length)
  { text := if b.texts = [] then "No samples" else String.intercalate " | " b.texts
    score := match avg with
             | some q => .num q
             | none => .dash
    hash := Nat.repr b.count ++ " evts"
    tipo := b.tipo
    period := if mode = "3h" then some b.key else none
    date := if mode = "3h" then none else some b.key }

/-- The sort key of lines 298-299: the period or date string, defaulting
to the empty string. -/
def entryKey (mode : String) (e : SummaryEntry) : String :=
  (if mode = "3h" then e.period else e.date).getD ""

/-- Stable descending insertion by key.  Python sorts with the built-in
stable sort and reverse=True, which preserves the original order of
equal keys; on lists with pairwise distinct keys (as produced from a
dict) any stable descending sort yields this list. -/
def insertDesc (mode : String) (e : SummaryEntry) : List SummaryEntry → List SummaryEntry
  | [] => [e]
  | x :: xs =>
    if entryKey mode x < entryKey mode e then e :: x :: xs
    else x :: insertDesc mode e xs

def sortDesc (mode : String) : List SummaryEntry → List SummaryEntry
  | [] => []
  | x :: xs => insertDesc mode x (sortDesc mode xs)

/-- server.summarize_collection (lines 242-300) after the store read:
bucket, emit, sort descending by key, truncate to the requested cap. -/
def summarize_collection (raw : List SRecord) (mode : String)
    (limit_buckets : Nat) : List SummaryEntry :=
  (sortDesc mode ((bucketFold raw mode).map (emitEntry mode))).take limit_buckets

/-! ### C9: bucket score is the mean, or the dash placeholder -/

theorem mem_insertDesc {mode : String} {e a : SummaryEntry} :
    ∀ {l : List SummaryEntry}, a ∈ insertDesc mode e l ↔ a = e ∨ a ∈ l := by
  intro l
  induction l with
  | nil => simp [insertDesc]
  | cons x xs ih =>
    rw [insertDesc]
    by_cases h : entryKey mode x < entryKey mode e
    · rw [if_pos h]
      simp
    · rw [if_neg h]
      simp only [List.mem_cons, ih]
      tauto

theorem mem_sortDesc {mode : String} {a : SummaryEntry} :
    ∀ {l : List SummaryEntry}, a ∈ sortDesc mode l ↔ a ∈ l := by
  intro l
  induction l with
  | nil => simp [sortDesc]
  | cons x xs ih =>
    rw [sortDesc]
    rw [mem_insertDesc]
    simp [ih]

/-- C9: every entry emitted by summarize_collection comes from a bucket,
and its score field is the dash placeholder exactly when that bucket
collected no numeric scores, and the arithmetic mean of the collected
scores otherwise — never a default zero and never a failure. -/
theorem summary_score_mean_or_dash (raw : List SRecord) (mode : String)
    (lim : Nat) (e : SummaryEntry) (he : e ∈ summarize_collection raw mode lim) :
    ∃ b ∈ bucketFold raw mode, e = emitEntry mode b ∧
      e.score = (if b.scores = [] then ScoreOut.dash
                 else ScoreOut.num (b.scores.sum / b.scores.length)) := by
  have h1 : e ∈ sortDesc mode ((bucketFold raw mode).map (emitEntry mode)) :=
    List.mem_of_mem_take he
  have h2 : e ∈ (bucketFold raw mode).map (emitEntry mode) := mem_sortDesc.mp h1
  obtain ⟨b, hb, rfl⟩ := List.mem_map.mp h2
  refine ⟨b, hb, rfl, ?_⟩
  by_cases h : b.scores = []
  · simp [emitEntry, h]
  · simp [emitEntry, h]

/-- A record with no score key, used as the C9 witness input. -/
def unscoredRecord : SRecord where
  timestamp := some ⟨2024, 1, 15, 1, 0, 0, 0⟩
  text := some (.str "e")

/-- Witness for C9: a single record with no numeric score yields one
bucket whose emitted score is the dash placeholder. -/
theorem summary_score_mean_or_dash_witness :
    (emitEntry "3h" ⟨"2024-01-15T00:00:00+00:00", "3h", 1, [], ["e"]⟩
        ∈ summarize_collection [unscoredRecord] "3h" 200) ∧
    ∃ b ∈ bucketFold [unscoredRecord] "3h",
      emitEntry "3h" ⟨"2024-01-15T00:00:00+00:00", "3h", 1, [], ["e"]⟩ = emitEntry "3h" b ∧
      (emitEntry "3h" ⟨"2024-01-15T00:00:00+00:00", "3h", 1, [], ["e"]⟩).score
        = (if b.scores = [] then ScoreOut.dash
           else ScoreOut.num (b.scores.sum / b.scores.length)) := by
  have hmem : emitEntry "3h" ⟨"2024-01-15T00:00:00+00:00", "3h", 1, [], ["e"]⟩
      ∈ summarize_collection [unscoredRecord] "3h" 200 := by decide
  exact ⟨hmem, summary_score_mean_or_dash _ "3h" 200 _ hmem⟩

/-! ### C4: five events on one day, mode 3h

The five events at hours 01:00, 02:00, 04:00, 05:00, 23:00 of one
(arbitrary) calendar day.  The proof steps the bucket fold symbolically:
the only facts it needs about the abstract date are that keys of equal
hours coincide (definitional) and keys of different hours differ and
order lexicographically by their hour digits, which the common-prefix
lemmas below provide. -/

def c4Record (y mo d h : Nat) : SRecord where
  timestamp := some ⟨y, mo, d, h, 0, 0, 0⟩
  text := some (.str "e")

def c4Events (y mo d : Nat) : List SRecord :=
  [c4Record y mo d 1, c4Record y mo d 2, c4Record y mo d 4,
   c4Record y mo d 5, c4Record y mo d 23]

/-- The 3h bucket key of hour h of the day. -/
def c4Key (y mo d h : Nat) : String :=
  Dt.iso ⟨y, mo, d, h, 0, 0, 0⟩

/-- The date part shared by all keys of one day. -/
def c4Prefix (y mo d : Nat) : String :=
  pad 4 y ++ "-" ++ pad 2 mo ++ "-" ++ pad 2 d ++ "T"

/-- The hour-dependent remainder of a key. -/
def c4Suffix (h : Nat) : String :=
  pad 2 h ++ ":00:00+00:00"

theorem c4Key_data (y mo d h : Nat) :
    (c4Key y mo d h).data = (c4Prefix y mo d).data ++ (c4Suffix h).data := by
  unfold c4Key c4Prefix c4Suffix Dt.iso Dt.isoDate
  rw [if_pos rfl]
  simp only [String.data_append, List.append_assoc,
    show ((pad 2 0).data : List Char) = ['0', '0'] from rfl,
    List.cons_append, List.singleton_append, List.nil_append]

/-- The truncated-hour form of the 3h bucket key on a literal instant
with zero minute, second and microsecond. -/
theorem bucketKey_3h_lit (y mo d h : Nat) :
    bucketKey "3h" (⟨y, mo, d, h, 0, 0, 0⟩ : Dt) = c4Key y mo d (h / 3 * 3) := by
  unfold bucketKey c4Key
  rw [if_pos rfl]

/-- Lexicographic order ignores a common prefix. -/
theorem list_lt_append_iff (p a b : List Char) : p ++ a < p ++ b ↔ a < b := by
  induction p with
  | nil => simp
  | cons x p ih =>
    constructor
    · intro h
      cases h with
      | cons h3 => exact ih.mp h3
      | rel hx => exact absurd hx (lt_irrefl x)
    · intro h
      exact List.Lex.cons (ih.mpr h)

theorem c4Key_lt_iff (y mo d h hh : Nat) :
    c4Key y mo d h < c4Key y mo d hh ↔ (c4Suffix h).data < (c4Suffix hh).data := by
  rw [String.lt_iff_toList_lt]
  show (c4Key y mo d h).data < (c4Key y mo d hh).data ↔ _
  rw [c4Key_data, c4Key_data]
  exact list_lt_append_iff _ _ _

theorem c4Key_ne (y mo d : Nat) {h hh : Nat} (hne : c4Suffix h ≠ c4Suffix hh) :
    c4Key y mo d h ≠ c4Key y mo d hh := by
  intro he
  apply hne
  apply String.ext
  have hd := congrArg String.data he
  rw [c4Key_data, c4Key_data] at hd
  exact List.append_cancel_left hd

/-- C4: summarizing the five events in mode "3h" yields exactly three
buckets, keyed at hours 0, 3 and 21 of the day, with counts 2, 2 and 1
(the entries are sorted by key descending, so hour 21 comes first). -/
theorem three_hour_buckets (y mo d : Nat) :
    (summarize_collection (c4Events y mo d) "3h" 200).map (fun e => (e.period, e.hash))
      = [(some (c4Key y mo d 21), "1 evts"),
         (some (c4Key y mo d 3), "2 evts"),
         (some (c4Key y mo d 0), "2 evts")] := by
  have hne03 : c4Key y mo d 0 ≠ c4Key y mo d 3 := c4Key_ne y mo d (by decide)
  have hne021 : c4Key y mo d 0 ≠ c4Key y mo d 21 := c4Key_ne y mo d (by decide)
  have hne321 : c4Key y mo d 3 ≠ c4Key y mo d 21 := c4Key_ne y mo d (by decide)
  have hnl213 : ¬ (c4Key y mo d 21 < c4Key y mo d 3) := by
    rw [c4Key_lt_iff]; decide
  have hnl210 : ¬ (c4Key y mo d 21 < c4Key y mo d 0) := by
    rw [c4Key_lt_iff]; decide
  have hnl30 : ¬ (c4Key y mo d 3 < c4Key y mo d 0) := by
    rw [c4Key_lt_iff]; decide
  have k1 : bucketKey "3h" (⟨y, mo, d, 1, 0, 0, 0⟩ : Dt) = c4Key y mo d 0 := by
    rw [bucketKey_3h_lit]
  have k2 : bucketKey "3h" (⟨y, mo, d, 2, 0, 0, 0⟩ : Dt) = c4Key y mo d 0 := by
    rw [bucketKey_3h_lit]
  have k4 : bucketKey "3h" (⟨y, mo, d, 4, 0, 0, 0⟩ : Dt) = c4Key y mo d 3 := by
    rw [bucketKey_3h_lit]
  have k5 : bucketKey "3h" (⟨y, mo, d, 5, 0, 0, 0⟩ : Dt) = c4Key y mo d 3 := by
    rw [bucketKey_3h_lit]
  have k23 : bucketKey "3h" (⟨y, mo, d, 23, 0, 0, 0⟩ : Dt) = c4Key y mo d 21 := by
    rw [bucketKey_3h_lit]
  have s1 : bucketStep "3h" [] (c4Record y mo d 1)
      = [⟨c4Key y mo d 0, "3h", 1, [], ["e"]⟩] := by
    show updBuckets "3h" (bucketKey "3h" ⟨y, mo, d, 1, 0, 0, 0⟩) (c4Record y mo d 1) []
      = [⟨c4Key y mo d 0, "3h", 1, [], ["e"]⟩]
    rw [k1, updBuckets]
    exact rfl
  have s2 : bucketStep "3h" [⟨c4Key y mo d 0, "3h", 1, [], ["e"]⟩] (c4Record y mo d 2)
      = [⟨c4Key y mo d 0, "3h", 2, [], ["e", "e"]⟩] := by
    show updBuckets "3h" (bucketKey "3h" ⟨y, mo, d, 2, 0, 0, 0⟩) (c4Record y mo d 2)
        [⟨c4Key y mo d 0, "3h", 1, [], ["e"]⟩]
      = [⟨c4Key y mo d 0, "3h", 2, [], ["e", "e"]⟩]
    rw [k2, updBuckets, if_pos rfl]
    exact rfl
  have s3 : bucketStep "3h" [⟨c4Key y mo d 0, "3h", 2, [], ["e", "e"]⟩]
        (c4Record y mo d 4)
      = [⟨c4Key y mo d 0, "3h", 2, [], ["e", "e"]⟩,
         ⟨c4Key y mo d 3, "3h", 1, [], ["e"]⟩] := by
    show updBuckets "3h" (bucketKey "3h" ⟨y, mo, d, 4, 0, 0, 0⟩) (c4Record y mo d 4)
        [⟨c4Key y mo d 0, "3h", 2, [], ["e", "e"]⟩]
      = [⟨c4Key y mo d 0, "3h", 2, [], ["e", "e"]⟩,
         ⟨c4Key y mo d 3, "3h", 1, [], ["e"]⟩]
    rw [k4, updBuckets, if_neg hne03, updBuckets]
    exact rfl
  have s4 : bucketStep "3h"
        [⟨c4Key y mo d 0, "3h", 2, [], ["e", "e"]⟩,
         ⟨c4Key y mo d 3, "3h", 1, [], ["e"]⟩] (c4Record y mo d 5)
      = [⟨c4Key y mo d 0, "3h", 2, [], ["e", "e"]⟩,
         ⟨c4Key y mo d 3, "3h", 2, [], ["e", "e"]⟩] := by
    show updBuckets "3h" (bucketKey "3h" ⟨y, mo, d, 5, 0, 0, 0⟩) (c4Record y mo d 5)
        [⟨c4Key y mo d 0, "3h", 2, [], ["e", "e"]⟩,
         ⟨c4Key y mo d 3, "3h", 1, [], ["e"]⟩]
      = [⟨c4Key y mo d 0, "3h", 2, [], ["e", "e"]⟩,
         ⟨c4Key y mo d 3, "3h", 2, [], ["e", "e"]⟩]
    rw [k5, updBuckets, if_neg hne03, updBuckets, if_pos rfl]
    exact rfl
  have s5 : bucketStep "3h"
        [⟨c4Key y mo d 0, "3h", 2, [], ["e", "e"]⟩,
         ⟨c4Key y mo d 3, "3h", 2, [], ["e", "e"]⟩] (c4Record y mo d 23)
      = [⟨c4Key y mo d 0, "3h", 2, [], ["e", "e"]⟩,
         ⟨c4Key y mo d 3, "3h", 2, [], ["e", "e"]⟩,
         ⟨c4Key y mo d 21, "3h", 1, [], ["e"]⟩] := by
    show updBuckets "3h" (bucketKey "3h" ⟨y, mo, d, 23, 0, 0, 0⟩) (c4Record y mo d 23)
        [⟨c4Key y mo d 0, "3h", 2, [], ["e", "e"]⟩,
         ⟨c4Key y mo d 3, "3h", 2, [], ["e", "e"]⟩]
      = [⟨c4Key y mo d 0, "3h", 2, [], ["e", "e"]⟩,
         ⟨c4Key y mo d 3, "3h", 2, [], ["e", "e"]⟩,
         ⟨c4Key y mo d 21, "3h", 1, [], ["e"]⟩]
    rw [k23, updBuckets, if_neg hne021, updBuckets, if_neg hne321, updBuckets]
    exact rfl
  have hb : bucketFold (c4Events y mo d) "3h"
      = [⟨c4Key y mo d 0, "3h", 2, [], ["e", "e"]⟩,
         ⟨c4Key y mo d 3, "3h", 2, [], ["e", "e"]⟩,
         ⟨c4Key y mo d 21, "3h", 1, [], ["e"]⟩] := by
    unfold bucketFold c4Events
    rw [List.foldl_cons, s1, List.foldl_cons, s2, List.foldl_cons, s3,
      List.foldl_cons, s4, List.foldl_cons, s5, List.foldl_nil]
  have he0 : emitEntry "3h" (⟨c4Key y mo d 0, "3h", 2, [], ["e", "e"]⟩ : BucketData)
      = ⟨"e | e", .dash, "2 evts", "3h", some (c4Key y mo d 0), none⟩ := by
    unfold emitEntry
    norm_num
    exact ⟨rfl, rfl⟩
  have he3 : emitEntry "3h" (⟨c4Key y mo d 3, "3h", 2, [], ["e", "e"]⟩ : BucketData)
      = ⟨"e | e", .dash, "2 evts", "3h", some (c4Key y mo d 3), none⟩ := by
    unfold emitEntry
    norm_num
    exact ⟨rfl, rfl⟩
  have he21 : emitEntry "3h" (⟨c4Key y mo d 21, "3h", 1, [], ["e"]⟩ : BucketData)
      = ⟨"e", .dash, "1 evts", "3h", some (c4Key y mo d 21), none⟩ := by
    unfold emitEntry
    norm_num
    exact ⟨rfl, rfl⟩
  unfold summarize_collection
  rw [hb]
  rw [List.map_cons, List.map_cons, List.map_cons, List.map_nil, he0, he3, he21]
  rw [sortDesc, sortDesc, sortDesc, sortDesc]
  rw [show insertDesc "3h"
        (⟨"e", .dash, "1 evts", "3h", some (c4Key y mo d 21), none⟩ : SummaryEntry) []
      = [⟨"e", .dash, "1 evts", "3h", some (c4Key y mo d 21), none⟩] from rfl]
  rw [insertDesc, if_neg (by
    show ¬ (c4Key y mo d 21 < c4Key y mo d 3)
    exact hnl213)]
  rw [show insertDesc "3h"
        (⟨"e | e", .dash, "2 evts", "3h", some (c4Key y mo d 3), none⟩ : SummaryEntry) []
      = [⟨"e | e", .dash, "2 evts", "3h", some (c4Key y mo d 3), none⟩] from rfl]
  rw [insertDesc, if_neg (by
    show ¬ (c4Key y mo d 21 < c4Key y mo d 0)
    exact hnl210)]
  rw [insertDesc, if_neg (by
    show ¬ (c4Key y mo d 3 < c4Key y mo d 0)
    exact hnl30)]
  rw [show insertDesc "3h"
        (⟨"e | e", .dash, "2 evts", "3h", some (c4Key y mo d 0), none⟩ : SummaryEntry) []
      = [⟨"e | e", .dash, "2 evts", "3h", some (c4Key y mo d 0), none⟩] from rfl]
  rfl

/-! ## JSON values and the scoring-result processing

The upstream model returns a JSON object (json.loads of the response
content).  JSON values are modelled with a mutual inductive; a JSON null
loads to Python None, which dict.get also returns for an absent key, so
pyGet folds null into none while get/hasKey keep key presence apart.
Python floats are rationals. -/

mutual
inductive Json where
  | null
  | bool (b : Bool)
  | num (q : ℚ)
  | str (s : String)
  | arr (xs : JArr)
  | obj (fs : JObj)

inductive JArr where
  | nil
  | cons (hd : Json) (tl : JArr)

inductive JObj where
  | nil
  | cons (k : String) (v : Json) (tl : JObj)
end

/-- dict lookup by key (json.loads object key order). -/
def JObj.get : JObj → String → Option Json
  | .nil, _ => none
  | .cons k v tl, key => if k = key then some v else tl.get key

/-- dict.get normalized to Python None: an absent key and a null value
are both None. -/
def JObj.pyGet (fs : JObj) (key : String) : Option Json :=
  match fs.get key with
  | some .null => none
  | x => x

/-- Python truthiness of a loaded JSON value. -/
def Json.isTruthy : Json → Bool
  | .null => false
  | .bool b => b
  | .num q => !(q = 0)
  | .str s => !(s = "")
  | .arr .nil => false
  | .arr (.cons _ _) => true
  | .obj .nil => false
  | .obj (.cons _ _ _) => true

/-- Truthiness of a value-or-None. -/
def optTruthy : Option Json → Bool
  | some v => v.isTruthy
  | none => false

/-- The Python or of two value-or-None operands: the first when truthy,
else the second. -/
def pyOr (a b : Option Json) : Option Json :=
  if optTruthy a then a else b

/-- x is True: identity with the True object. -/
def isTrueJ : Option Json → Bool
  | some (.bool true) => true
  | _ => false

/-- float(v) on a loaded JSON value: numbers convert, booleans are ints,
everything else raises (none).  CPython also accepts strings holding a
numeric literal; no claim below evaluates a string-valued score, so that
case is out of the modelled range. -/
def pyFloat : Json → Option ℚ
  | .num q => some q
  | .bool b => some (if b then 1 else 0)
  | _ => none

/-- Decimal rendering of a number (CPython int/float repr abstracted;
never compared against a literal by any theorem below). -/
def numRepr (q : ℚ) : String :=
  if q.den = 1 then toString q.num else toString q

/-- The single-quote character, used by the Python repr of strings. -/
def sq : String := String.singleton (Char.ofNat 39)

mutual
/-- json.dumps with ensure_ascii False.  The source passes indent 2,
which only inserts whitespace inside non-empty containers; the theorems
below evaluate dumps concretely only on the empty object, where CPython
also renders without whitespace. -/
def Json.dumps : Json → String
  | .null => "null"
  | .bool true => "true"
  | .bool false => "false"
  | .num q => numRepr q
  | .str s => "\"" ++ s ++ "\""
  | .arr xs => "[" ++ String.intercalate ", " (JArr.dumpsList xs) ++ "]"
  | .obj fs => "\x7b" ++ String.intercalate ", " (JObj.dumpsList fs) ++ "\x7d"

def JArr.dumpsList : JArr → List String
  | .nil => []
  | .cons v tl => Json.dumps v :: JArr.dumpsList tl

def JObj.dumpsList : JObj → List String
  | .nil => []
  | .cons k v tl => ("\"" ++ k ++ "\": " ++ Json.dumps v) :: JObj.dumpsList tl
end

mutual
/-- Python repr of a loaded JSON value (None/True/False keywords,
single-quoted strings); only its totality matters below. -/
def Json.pyRepr : Json → String
  | .null => "None"
  | .bool true => "True"
  | .bool false => "False"
  | .num q => numRepr q
  | .str s => sq ++ s ++ sq
  | .arr xs => "[" ++ String.intercalate ", " (JArr.reprList xs) ++ "]"
  | .obj fs => "\x7b" ++ String.intercalate ", " (JObj.reprList fs) ++ "\x7d"

def JArr.reprList : JArr → List String
  | .nil => []
  | .cons v tl => Json.pyRepr v :: JArr.reprList tl

def JObj.reprList : JObj → List String
  | .nil => []
  | .cons k v tl => (sq ++ k ++ sq ++ ": " ++ Json.pyRepr v) :: JObj.reprList tl
end

/-- str(v): strings unchanged, scalars and containers via repr
keywords. -/
def Json.pyToStr : Json → String
  | .str s => s
  | v => v.pyRepr

/-- The clean helper of trigger_analysis (consumer.py lines 351-354):
dicts and lists are dumped as JSON, other values render with str() when
truthy and as the empty string otherwise. -/
def clean : Json → String
  | .arr xs => Json.dumps (.arr xs)
  | .obj fs => Json.dumps (.obj fs)
  | v => if v.isTruthy then v.pyToStr else ""

/-- A fixed nonempty diagnostic standing for the interpolated
f-string "Analysis error: ..." of server.py line 231 (the exception
message is irrelevant to every claim). -/
def analysisErrorText : String := "Analysis error"

/-- The result post-processing of server.openai_analyze (lines 219-231)
and llm.openai_analyze_events (lines 42-54), which share these lines
verbatim — modelled from the parsed response value onwards:
float(parsed.get("score", 0.0)) (raising on a non-numeric value, caught
by the surrounding except into the sentinel), then text or
"No summary", then the clamp of score into the unit interval. -/
def openai_analyze_result (parsed : Json) : ℚ × Json :=
  match parsed with
  | .obj fs =>
    match pyFloat ((fs.get "score").getD (.num 0)) with
    | none => (0, .str analysisErrorText)
    | some q =>
      let t : Json :=
        match fs.pyGet "text" with
        | some v => if v.isTruthy then v else .str "No summary"
        | none => .str "No summary"
      (max 0 (min q 1), t)
  | _ => (0, .str analysisErrorText)

/-! ## The adaptive result parsing of the consumer /analyze handler
(consumer.py lines 346-409).  A returned none marks a raised exception
(AttributeError from .get on a non-dict, TypeError/ValueError from
float on a non-numeric score). -/

/-- The score inference inside the analisis block (lines 363-371):
0.9 when the root alerta is True, 0.8 when the anomaly list is a
non-empty list, else 0.0. -/
def inferAnalisisScore (result : JObj) (resFs : JObj) : ℚ :=
  let anoms := pyOr (resFs.pyGet "anomalías_detectadas") (resFs.pyGet "riesgos_detectados")
  if isTrueJ (result.pyGet "alerta") then 9/10
  else
    match anoms with
    | some (.arr (.cons _ _)) => 8/10
    | _ => 0

/-- Lines 357-371, the analisis wrapper: when the key is present, its
value must be a dict for the .get calls that run (text lookup when text
is falsy, anomaly lookup when score is None); a non-dict value raises
there. -/
def analisisBlock (result : JObj) : Option (Option Json × Option Json) :=
  let score0 := result.pyGet "score"
  let text0 := result.pyGet "text"
  if (result.get "analisis").isSome then
    match (result.get "analisis").getD .null with
    | .obj resFs =>
      let text1 := if optTruthy text0 then text0
                   else pyOr (resFs.pyGet "conclusion") (resFs.pyGet "resumen_eventos")
      let score1 := match score0 with
                    | some s => some s
                    | none => some (.num (inferAnalisisScore result resFs))
      some (score1, text1)
    | _ =>
      if optTruthy text0 then
        match score0 with
        | some s => some (some s, text0)
        | none => none
      else none
  else some (score0, text0)

/-- Lines 373-386, the root conclusion fallback. -/
def conclusionBlock (result : JObj) (score1 text1 : Option Json) :
    Option Json × Option Json :=
  if optTruthy text1 then (score1, text1)
  else
    match result.pyGet "conclusion" with
    | none => (score1, text1)
    | some conc =>
      if conc.isTruthy then
        match conc with
        | .obj concFs =>
          let t := pyOr (concFs.pyGet "comentario")
                    (pyOr (concFs.pyGet "text") (concFs.pyGet "descripcion"))
          let t2 : Json :=
            match t with
            | some v => if v.isTruthy then v else .str (Json.pyToStr conc)
            | none => .str (Json.pyToStr conc)
          let s2 : Option Json :=
            match score1 with
            | some s => some s
            | none =>
              if isTrueJ (concFs.pyGet "riesgos_detectados") then some (.num (8/10))
              else if isTrueJ (concFs.pyGet "actividad_inusual") then some (.num (7/10))
              else none
          (s2, some t2)
        | _ => (score1, some conc)
      else (score1, text1)

/-- Lines 388-393: the root comentario and summary fallbacks followed by
the last-resort dump of the whole result. -/
def textFallback (result : JObj) (text2 : Option Json) : Json :=
  match (if optTruthy text2 then text2
         else pyOr (result.pyGet "comentario") (result.pyGet "summary")) with
  | some v => if v.isTruthy then v else .str (Json.dumps (.obj result))
  | none => .str (Json.dumps (.obj result))

/-- Lines 395-401: the final score default (0.9 on a root alerta True,
else 0.0) when no earlier step produced one. -/
def finalScore (result : JObj) (score2 : Option Json) : Json :=
  match score2 with
  | some v => v
  | none => if isTrueJ (result.pyGet "alerta") then .num (9/10) else .num 0

/-- consumer trigger_analysis lines 346-409 from the raw result object
to the response pair. -/
def adaptive_parse (result : JObj) : Option (ℚ × String) :=
  match analisisBlock result with
  | none => none
  | some (score1, text1) =>
    match pyFloat (finalScore result (conclusionBlock result score1 text1).1) with
    | none => none
    | some q => some (q, clean (textFallback result (conclusionBlock result score1 text1).2))

/-! ### C5: score clamping -/

/-- C5 (amended): the openai_analyze result processing shared by
server.py and llm.py always yields a score in the unit interval — the
parsed score is clamped, the error paths return the 0.0 sentinel — and
a truthy (in particular never empty) text, falling back to
"No summary" or the diagnostic message.  (As stated the claim also
covered the adaptive /analyze path of the consumer, which does not
clamp: see the counterexample.) -/
theorem analysisErrorText_truthy : (Json.str analysisErrorText).isTruthy = true := by
  decide

theorem openai_score_clamped (parsed : Json) :
    0 ≤ (openai_analyze_result parsed).1 ∧ (openai_analyze_result parsed).1 ≤ 1 ∧
      (openai_analyze_result parsed).2.isTruthy = true := by
  cases parsed with
  | obj fs =>
    unfold openai_analyze_result
    cases hf : pyFloat ((fs.get "score").getD (.num 0)) with
    | none =>
      simp only [hf]
      exact ⟨le_refl _, zero_le_one, by decide⟩
    | some q =>
      simp only [hf]
      refine ⟨le_max_left _ _, max_le (by norm_num) (min_le_right _ _), ?_⟩
      cases ht : fs.pyGet "text" with
      | none => simp only [ht]; decide
      | some v =>
        simp only [ht]
        by_cases hv : v.isTruthy = true
        · simp [hv]
        · simp only [hv, Bool.false_eq_true, if_false]
          decide
  | null => exact ⟨le_refl _, zero_le_one, analysisErrorText_truthy⟩
  | bool b => exact ⟨le_refl _, zero_le_one, analysisErrorText_truthy⟩
  | num q => exact ⟨le_refl _, zero_le_one, analysisErrorText_truthy⟩
  | str s => exact ⟨le_refl _, zero_le_one, analysisErrorText_truthy⟩
  | arr xs => exact ⟨le_refl _, zero_le_one, analysisErrorText_truthy⟩

/-- A model result carrying the out-of-range score 2. -/
def overScoreResult : JObj :=
  JObj.cons "score" (.num 2) (JObj.cons "text" (.str "ok") .nil)

/-- C5 counterexample: the adaptive /analyze path of the consumer
passes a numeric model-provided score through float() without any
clamp, so the upstream value 2 is returned as the response score, which
is outside the unit interval. -/
theorem adaptive_parse_not_clamped :
    adaptive_parse overScoreResult = some (2, "ok") ∧ ¬ ((2 : ℚ) ≤ 1) :=
  ⟨rfl, by norm_num⟩

/-! ### C6: the adaptive parsing can raise -/

/-- A model result whose analisis value is a plain string. -/
def strAnalisisResult : JObj := JObj.cons "analisis" (.str "todo bien") .nil

/-- C6 counterexample: on a result whose analisis key holds a string
(and with no text key), the handler executes res.get("conclusion") on
that string and raises AttributeError — the parsing does not always
produce a pair. -/
theorem adaptive_parse_raises_on_str_analisis :
    adaptive_parse strAnalisisResult = none := rfl

/-- The score slot never reaches float() with a non-convertible
value. -/
def ScoreOk (so : Option Json) : Prop :=
  ∀ v, so = some v → (pyFloat v).isSome = true

theorem analisisBlock_some (result : JObj)
    (H1 : ScoreOk (result.pyGet "score"))
    (H2 : ∀ v, result.get "analisis" = some v → ∃ gs, v = Json.obj gs) :
    ∃ s t, analisisBlock result = some (s, t) ∧ ScoreOk s := by
  unfold analisisBlock
  cases hv : result.get "analisis" with
  | none =>
    simp only [hv, Option.isSome_none, Bool.false_eq_true, if_false]
    exact ⟨_, _, rfl, H1⟩
  | some v =>
    obtain ⟨gs, rfl⟩ := H2 v hv
    simp only [hv, Option.isSome_some, if_true, Option.getD_some]
    refine ⟨_, _, rfl, ?_⟩
    intro w hw
    cases hs : result.pyGet "score" with
    | some s0 =>
      rw [hs] at hw
      simp only [Option.some.injEq] at hw
      subst hw
      exact H1 s0 hs
    | none =>
      rw [hs] at hw
      simp only [Option.some.injEq] at hw
      subst hw
      rfl

theorem conclusionBlock_scoreOk (result : JObj) (score1 text1 : Option Json)
    (h : ScoreOk score1) : ScoreOk (conclusionBlock result score1 text1).1 := by
  unfold conclusionBlock
  by_cases h1 : optTruthy text1 = true
  · simpa [h1] using h
  · simp only [h1, if_false, Bool.false_eq_true]
    cases hc : result.pyGet "conclusion" with
    | none => exact h
    | some conc =>
      by_cases h2 : conc.isTruthy = true
      · simp only [h2, if_true]
        cases conc with
        | obj concFs =>
          cases hs : score1 with
          | some s =>
            intro w hw
            simp only [hs] at hw
            simp only [Option.some.injEq] at hw
            subst hw
            exact h _ hs
          | none =>
            intro w hw
            simp only [hs] at hw
            by_cases hr : isTrueJ (concFs.pyGet "riesgos_detectados") = true
            · simp only [hr, if_true, Option.some.injEq] at hw
              subst hw; rfl
            · simp only [hr, Bool.false_eq_true, if_false] at hw
              by_cases ha : isTrueJ (concFs.pyGet "actividad_inusual") = true
              · simp only [ha, if_true, Option.some.injEq] at hw
                subst hw; rfl
              · simp only [ha, Bool.false_eq_true, if_false] at hw
                cases hw
        | null => exact h
        | bool b => exact h
        | num q => exact h
        | str s => exact h
        | arr xs => exact h
      · simp only [h2, Bool.false_eq_true, if_false]
        exact h

theorem dumps_obj_ne_empty (fs : JObj) : Json.dumps (.obj fs) ≠ "" := by
  intro h
  have hd := congrArg String.data h
  rw [Json.dumps] at hd
  rw [String.data_append] at hd
  simp at hd

/-- C6 (amended): provided the value under the score key, when present
and non-null, converts with float() (a number or a boolean), and the
value under the analisis key, when present, is an object, the adaptive
parsing never raises and produces a (score, text) pair; and when the
result has none of the inspected keys, it defaults the score to 0 and
serializes the whole raw result as the text.  (As stated — for every
JSON object — the claim fails: see the counterexample.) -/
theorem adaptive_parse_never_raises (result : JObj)
    (H1 : ∀ v, result.pyGet "score" = some v → (pyFloat v).isSome = true)
    (H2 : ∀ v, result.get "analisis" = some v → ∃ gs, v = Json.obj gs) :
    (∃ p, adaptive_parse result = some p) ∧
      ((∀ k ∈ (["score", "text", "analisis", "conclusion",
                 "comentario", "summary", "alerta"] : List String),
          result.get k = none) →
        adaptive_parse result = some (0, Json.dumps (.obj result))) := by
  constructor
  · obtain ⟨s, t, hab, hso⟩ := analisisBlock_some result H1 H2
    unfold adaptive_parse
    rw [hab]
    have h2 := conclusionBlock_scoreOk result s t hso
    have hsome : (pyFloat (finalScore result (conclusionBlock result s t).1)).isSome
        = true := by
      unfold finalScore
      cases hc : (conclusionBlock result s t).1 with
      | some v => exact h2 v hc
      | none =>
        by_cases ha : isTrueJ (result.pyGet "alerta") = true <;> simp [ha, pyFloat]
    obtain ⟨q, hq⟩ := Option.isSome_iff_exists.mp hsome
    refine ⟨(q, clean (textFallback result (conclusionBlock result s t).2)), ?_⟩
    show (match pyFloat (finalScore result (conclusionBlock result s t).1) with
        | none => none
        | some q => some (q, clean (textFallback result (conclusionBlock result s t).2)))
      = some (q, clean (textFallback result (conclusionBlock result s t).2))
    rw [hq]
  · intro hnone
    have hsc : result.get "score" = none := hnone _ (by simp)
    have htx : result.get "text" = none := hnone _ (by simp)
    have han : result.get "analisis" = none := hnone _ (by simp)
    have hco : result.get "conclusion" = none := hnone _ (by simp)
    have hcm : result.get "comentario" = none := hnone _ (by simp)
    have hsu : result.get "summary" = none := hnone _ (by simp)
    have hal : result.get "alerta" = none := hnone _ (by simp)
    have psc : result.pyGet "score" = none := by rw [JObj.pyGet, hsc]
    have ptx : result.pyGet "text" = none := by rw [JObj.pyGet, htx]
    have pco : result.pyGet "conclusion" = none := by rw [JObj.pyGet, hco]
    have pcm : result.pyGet "comentario" = none := by rw [JObj.pyGet, hcm]
    have psu : result.pyGet "summary" = none := by rw [JObj.pyGet, hsu]
    have pal : result.pyGet "alerta" = none := by rw [JObj.pyGet, hal]
    unfold adaptive_parse analisisBlock conclusionBlock textFallback finalScore
    simp only [psc, ptx, pco, pcm, psu, pal, han, Option.isSome_none,
      Bool.false_eq_true, if_false, optTruthy, pyOr, Json.isTruthy, isTrueJ,
      Option.some.injEq, pyFloat]
    simp [clean, Json.pyToStr, Json.isTruthy, dumps_obj_ne_empty result]

/-- Witness for C6 (amended) at the empty result object: the parsing
yields score 0 and the serialized empty object as text. -/
theorem adaptive_parse_never_raises_witness :
    (∃ p, adaptive_parse JObj.nil = some p) ∧
      ((∀ k ∈ (["score", "text", "analisis", "conclusion",
                 "comentario", "summary", "alerta"] : List String),
          JObj.nil.get k = none) →
        adaptive_parse JObj.nil = some (0, Json.dumps (.obj JObj.nil))) :=
  adaptive_parse_never_raises JObj.nil
    (by intro v hv; simp [JObj.pyGet, JObj.get] at hv)
    (by intro v hv; simp [JObj.get] at hv)

/-! ## Retries with exponential backoff

consumer.with_retries (lines 86-111, defaults base_delay 1.0 and
max_delay 30.0) and server.with_retries (lines 159-174, defaults
base_delay 1.0 and max_delay 15.0).  Both retry on a timeout or on a
response status in 429/500/502/503/504, up to max_attempts 3; the two
differ in where the 429 doubling meets the cap.  Only the pre-jitter
delay is modelled (the random jitter factor is a model boundary); the
request function is modelled by the list of outcomes of its successive
invocations. -/

/-- An exception raised by the wrapped request function: a timeout
(requests.Timeout, no usable response status), an HTTPError-like
exception carrying a response status, or any other exception without a
response attribute. -/
inductive ReqErr where
  | timeout
  | http (status : Nat)
  | noResponse
deriving DecidableEq

/-- getattr(getattr(e, "response", None), "status_code", None). -/
def ReqErr.statusOf : ReqErr → Option Nat
  | .timeout => none
  | .http s => some s
  | .noResponse => none

/-- The retriable test shared by both helpers: a timeout, or a status
in the retry set. -/
def retriableErr : ReqErr → Bool
  | .timeout => true
  | .http s => s = 429 || s = 500 || s = 502 || s = 503 || s = 504
  | .noResponse => false

/-- The pre-jitter backoff of consumer.with_retries lines 104-107: the
429 doubling happens inside the cap. -/
def consumer_backoff (base_delay max_delay : ℚ) (attempt : Nat) (status : Option Nat) : ℚ :=
  if status = some 429 then min max_delay (base_delay * 2 ^ (attempt - 1) * 2)
  else min max_delay (base_delay * 2 ^ (attempt - 1))

/-- The pre-jitter backoff of server.with_retries lines 170-172: the
cap is applied first and the 429 doubling after it. -/
def server_backoff (base_delay max_delay : ℚ) (attempt : Nat) (status : Option Nat) : ℚ :=
  let s := min max_delay (base_delay * 2 ^ (attempt - 1))
  if status = some 429 then s * 2 else s

/-- The trace of one with_retries call: the outcome it ends with, how
many times it invoked the request function, and the pre-jitter sleeps
it performed. -/
structure RetryTrace (α : Type) where
  result : Except ReqErr α
  calls : Nat
  sleeps : List ℚ

/-- The retry loop shared by both helpers, parametrized by the backoff
formula: return on success; on an exception increment attempt and
re-raise when attempts are exhausted or the error is not retriable,
else sleep and call again.  The outcome list supplies one entry per
invocation of the request function; none means the model ran out of
supplied outcomes. -/
def with_retries_run {α : Type} (backoff : Nat → Option Nat → ℚ) (max_attempts : Nat) :
    Nat → List (Except ReqErr α) → Option (RetryTrace α)
  | _, [] => none
  | attempt, o :: rest =>
    match o with
    | .ok v => some ⟨.ok v, 1, []⟩
    | .error e =>
      if max_attempts ≤ attempt + 1 ∨ retriableErr e = false then
        some ⟨.error e, 1, []⟩
      else
        match with_retries_run backoff max_attempts (attempt + 1) rest with
        | none => none
        | some tr => some ⟨tr.result, tr.calls + 1, backoff (attempt + 1) e.statusOf :: tr.sleeps⟩

/-- consumer.with_retries at its default arguments. -/
def consumer_with_retries {α : Type} (outcomes : List (Except ReqErr α)) :
    Option (RetryTrace α) :=
  with_retries_run (consumer_backoff 1 30) 3 0 outcomes

/-- server.with_retries at its default arguments. -/
def server_with_retries {α : Type} (outcomes : List (Except ReqErr α)) :
    Option (RetryTrace α) :=
  with_retries_run (server_backoff 1 15) 3 0 outcomes

/-! ### C7: the pre-jitter delay and its cap -/

/-- C7 counterexample: in the server variant the 429 doubling is
applied after the min with max_delay, so at attempt 4 (reachable for
any max_attempts argument above 4) with the default base 1 and cap 15
the pre-jitter delay is min(15, 8) * 2 = 16, which exceeds max_delay —
and is not the capped doubled formula min(15, 16) = 15 either. -/
theorem server_backoff_exceeds_cap :
    server_backoff 1 15 4 (some 429) = 16 ∧
      ¬ (server_backoff 1 15 4 (some 429) ≤ 15) ∧
      server_backoff 1 15 4 (some 429) ≠ min 15 (1 * 2 ^ (4 - 1) * 2) := by
  have h : server_backoff 1 15 4 (some 429) = 16 := by
    unfold server_backoff
    norm_num
  refine ⟨h, ?_, ?_⟩ <;> rw [h] <;> norm_num

/-- C7 (amended): the pre-jitter delay is base_delay * 2^(attempt-1),
doubled for status 429.  In the consumer variant the cap applies after
the doubling, so the delay never exceeds max_delay.  In the server
variant the cap applies before the doubling: the delay never exceeds
max_delay for a non-429 status and never exceeds twice max_delay for
429; with the default three attempts actually used at every call site
(so only attempts 1 and 2 sleep) the server delay also stays within its
cap of 15. -/
theorem backoff_formula_and_caps (b M : ℚ) (a : Nat) (st : Option Nat) :
    (consumer_backoff b M a st
        = min M (b * 2 ^ (a - 1) * (if st = some 429 then 2 else 1))) ∧
      consumer_backoff b M a st ≤ M ∧
      (server_backoff b M a st
        = (if st = some 429 then min M (b * 2 ^ (a - 1)) * 2
           else min M (b * 2 ^ (a - 1)))) ∧
      (st ≠ some 429 → server_backoff b M a st ≤ M) ∧
      (st = some 429 → server_backoff b M a st ≤ 2 * M) ∧
      (a ≤ 2 → server_backoff 1 15 a st ≤ 15) := by
  refine ⟨?_, ?_, ?_, ?_, ?_, ?_⟩
  · unfold consumer_backoff
    by_cases h : st = some 429 <;> simp [h]
  · unfold consumer_backoff
    by_cases h : st = some 429 <;> simp [h, min_le_left]
  · unfold server_backoff
    by_cases h : st = some 429 <;> simp [h]
  · intro h
    unfold server_backoff
    simp [h, min_le_left]
  · intro h
    have h1 : min M (b * 2 ^ (a - 1)) ≤ M := min_le_left _ _
    unfold server_backoff
    simp only [h, if_true, reduceIte]
    linarith
  · intro h
    unfold server_backoff
    interval_cases a <;> by_cases hs : st = some 429 <;> simp [hs] <;> norm_num

/-- Witness for C7 (amended) at attempt 2 with status 429. -/
theorem backoff_formula_and_caps_witness :
    ((some 429 : Option Nat) = some 429 →
      server_backoff 1 15 2 (some 429) ≤ 2 * 15) ∧
      ((2 : Nat) ≤ 2 → server_backoff 1 15 2 (some 429) ≤ 15) ∧
      consumer_backoff 1 30 2 (some 429) ≤ 30 :=
  ⟨(backoff_formula_and_caps 1 15 2 (some 429)).2.2.2.2.1,
   (backoff_formula_and_caps 1 15 2 (some 429)).2.2.2.2.2,
   (backoff_formula_and_caps 1 30 2 (some 429)).2.1⟩

/-! ### C8: non-retriable errors fail immediately -/

/-- C8: when the first invocation raises an error whose status is not
in the retry set and which is not a timeout (for example HTTP 401),
both with_retries variants re-raise immediately: one call, no backoff
sleep, and the error itself as the outcome. -/
theorem nonretriable_fails_fast {α : Type} (s : Nat)
    (rest : List (Except ReqErr α))
    (h : s ∉ ([429, 500, 502, 503, 504] : List Nat)) :
    consumer_with_retries (.error (.http s) :: rest)
        = some ⟨.error (.http s), 1, []⟩ ∧
      server_with_retries (.error (.http s) :: rest)
        = some ⟨.error (.http s), 1, []⟩ := by
  have hr : retriableErr (.http s) = false := by
    unfold retriableErr
    simp only [List.mem_cons, List.not_mem_nil, or_false, not_or] at h
    obtain ⟨h1, h2, h3, h4, h5⟩ := h
    simp [h1, h2, h3, h4, h5]
  refine ⟨?_, ?_⟩
  · unfold consumer_with_retries with_retries_run
    simp [hr]
  · unfold server_with_retries with_retries_run
    simp [hr]

/-- Witness for C8 at status 401 with no further outcomes. -/
theorem nonretriable_fails_fast_witness :
    consumer_with_retries ([.error (.http 401)] : List (Except ReqErr Unit))
        = some ⟨.error (.http 401), 1, []⟩ ∧
      server_with_retries ([.error (.http 401)] : List (Except ReqErr Unit))
        = some ⟨.error (.http 401), 1, []⟩ :=
  nonretriable_fails_fast 401 [] (by decide)

end OmniStatus
